import Mathlib

/-!
Verification of the superquote tracker (`src/superquote_checker.py`).

The development shallowly embeds the state and the per-cycle diff logic of
`SuperquoteBot`:

* `Item` is the dictionary produced by `_extract_bet_info` (all seven keys are
  always present, initialised with sentinel defaults).
* `Record` is one value of `self.history`: the same fields plus the `active`
  flag that `run` stores into the dictionary.
* In the source, `self.active_superquotes[bet_id]` always holds the **same
  dictionary object** as `self.history[bet_id]` (both the startup load and the
  new-bet branch store one object in both maps), so a field update through one
  is visible through the other.  `BotState` therefore represents the active
  set by its key list, the shared values living in `history`.
* Python dictionaries preserve insertion order and update values in place, so
  `history` is an association list with `dinsert` (update-or-append) and
  `dmodify` (update a field of an existing key, `KeyError` when absent).
* `hashlib.md5(...).hexdigest()` is an external library function; it is passed
  in as an explicit parameter `md5hex` of the identity computation.
-/

structure Item where
  sport : String
  details : String
  «match» : String
  market : String
  odds_old : String
  odds_new : String
  timestamp : String
deriving Repr, DecidableEq

structure Record where
  sport : String
  details : String
  «match» : String
  market : String
  odds_old : String
  odds_new : String
  timestamp : String
  active : Bool
deriving Repr, DecidableEq

/-- Building the history value stored for a freshly observed item: the
extracted fields plus the assignment `data['active'] = True` performed by
`run` before the dictionary is inserted. -/
def Record.ofItem (i : Item) : Record :=
  { sport := i.sport, details := i.details, «match» := i.«match»,
    market := i.market, odds_old := i.odds_old, odds_new := i.odds_new,
    timestamp := i.timestamp, active := true }

/-- Python errors the embedded operations can raise. -/
inductive PyErr where
  | keyError
  | attributeError
deriving Repr, DecidableEq

/-- Dictionary assignment `d[k] = v`: replaces the value at an existing key in
place (keeping its position), otherwise appends at the end, as a Python dict
does. -/
def dinsert (l : List (String × Record)) (k : String) (v : Record) :
    List (String × Record) :=
  match List.lookup k l with
  | some _ => l.map (fun p => if p.1 = k then (k, v) else p)
  | none => l ++ [(k, v)]

/-- Field update `d[k]['f'] = x` on an existing key; `none` models the
`KeyError` raised when `k` is absent. -/
def dmodify (l : List (String × Record)) (k : String) (f : Record → Record) :
    Option (List (String × Record)) :=
  match List.lookup k l with
  | some _ => some (l.map (fun p => if p.1 = k then (p.1, f p.2) else p))
  | none => none

/-- In-memory state of the bot between cycles: the active set
(`self.active_superquotes`, represented by its key list, see the header
comment) and the history store (`self.history`). -/
structure BotState where
  active_superquotes : List String
  history : List (String × Record)
deriving Repr, DecidableEq

/-- Events produced by one diff step: the Telegram/Sheets notification sent
for a new bet, and the Telegram notification sent when a bet disappears
(keyed by the `bet_id` being popped, with the record the message is built
from). -/
inductive Event where
  | added (item : Item)
  | removed (bet_id : String) (bet : Record)
deriving Repr, DecidableEq

/-- Embedding of `_generate_id`: the MD5 hex digest of
`f"{match}|{market}|{details}"`.  The hash itself (`hashlib.md5`, an external
library) is the explicit parameter `md5hex`. -/
def unique_str (info : Item) : String :=
  info.«match» ++ "|" ++ info.market ++ "|" ++ info.details

def generate_id (md5hex : String → String) (info : Item) : String :=
  md5hex (unique_str info)

/-- One iteration of the `for container in containers` loop of `run` (lines
242-273), starting from the extracted `data`: skip items whose `match` or
`odds_new` field is the `"N/A"` sentinel; otherwise compute the fingerprint
and either record a new bet (notification event, insert into both maps) or
refresh the timestamp and active flag of the bet already in the active set.
Returns the state together with this item's contribution to
`current_cycle_ids` and to the event list. -/
def processItem (md5hex : String → String) (st : BotState) (data : Item) :
    Except PyErr (BotState × List String × List Event) :=
  if data.«match» = "N/A" ∨ data.odds_new = "N/A" then
    .ok (st, [], [])
  else
    let bet_id := generate_id md5hex data
    if bet_id ∈ st.active_superquotes then
      match dmodify st.history bet_id
          (fun r => { r with timestamp := data.timestamp, active := true }) with
      | some h => .ok ({ st with history := h }, [bet_id], [])
      | none => .error .keyError
    else
      .ok ({ active_superquotes := st.active_superquotes ++ [bet_id],
             history := dinsert st.history bet_id (Record.ofItem data) },
           [bet_id], [.added data])

/-- The whole container loop: fold `processItem` over the extracted items in
acquisition order, concatenating `current_cycle_ids` and the events. -/
def itemsLoop (md5hex : String → String) (st : BotState) :
    List Item → Except PyErr (BotState × List String × List Event)
  | [] => .ok (st, [], [])
  | d :: rest =>
    match processItem md5hex st d with
    | .error e => .error e
    | .ok (st1, ids1, evs1) =>
      match itemsLoop md5hex st1 rest with
      | .error e => .error e
      | .ok (st2, ids2, evs2) => .ok (st2, ids1 ++ ids2, evs1 ++ evs2)

/-- The removal loop of `run` (lines 276-284): for each id of `removed_ids`,
pop it from the active set, flip the history record's `active` flag to
`False`, and send the removal notification.  Looking up `bid` in `history`
models the record read; its absence is the `KeyError` the source would raise
at `self.history[bid]['active'] = False`.  The emitted record is the value at
pop time; the message only reads `match`, `odds_old` and `odds_new`, which
the flag update does not touch. -/
def removeLoop (st : BotState) :
    List String → Except PyErr (BotState × List Event)
  | [] => .ok (st, [])
  | bid :: rest =>
    match List.lookup bid st.history with
    | none => .error .keyError
    | some bet =>
      match dmodify st.history bid (fun r => { r with active := false }) with
      | none => .error .keyError
      | some h =>
        let popped : BotState :=
          { active_superquotes := st.active_superquotes.filter (fun b => b ≠ bid),
            history := h }
        match removeLoop popped rest with
        | .ok (st', evs) => .ok (st', .removed bid bet :: evs)
        | .error e => .error e

/-- One diff step of `run` (lines 238-284): process the extracted items, then
compute `removed_ids` (the active ids that did not reappear, in the active
set's insertion order) and run the removal loop.  Added events precede
removed events, as in the source. -/
def processCycle (md5hex : String → String) (st : BotState)
    (items : List Item) :
    Except PyErr (BotState × List String × List Event) :=
  match itemsLoop md5hex st items with
  | .error e => .error e
  | .ok (st1, ids, evs) =>
    match removeLoop st1
        (st1.active_superquotes.filter (fun b => decide (b ∉ ids))) with
    | .error e => .error e
    | .ok (st2, revs) => .ok (st2, ids, evs ++ revs)

/-!
Startup load (`_load_history`, lines 94-106).  The persisted file is modelled
at the JSON level: the file can be absent, can fail `json.load` (any
`json.JSONDecodeError`), or can parse to a JSON value.  A parsed value is a
dictionary of entries, a boolean, or anything else (list, string, number,
null) - only the distinctions the loader's code path can observe.  `json.load`
returns a dict with unique keys (duplicate keys collapse while parsing).
-/

inductive JValue where
  | jdict (entries : List (String × JValue))
  | jbool (b : Bool)
  | jother

inductive FileState where
  | absent
  | malformed
  | json (v : JValue)

/-- Attribute access `v.get('active')`: only dictionaries have `.get`; on any
other value Python raises `AttributeError`. -/
def jgetActive : JValue → Except PyErr (Option JValue)
  | .jdict es => .ok (List.lookup "active" es)
  | _ => .error .attributeError

/-- Check `v.get('active') is True`: identity with the `True` singleton, so
only a JSON `true` qualifies. -/
def isTrueJ : Option JValue → Bool
  | some (.jbool true) => true
  | _ => false

/-- The dict comprehension of line 101, which keeps the keys whose value has
`active` identical to `True`; evaluating `v.get('active')` on a non-dict
value raises. -/
def loadActives : List (String × JValue) → Except PyErr (List String)
  | [] => .ok []
  | (k, v) :: rest =>
    match jgetActive v with
    | .error e => .error e
    | .ok a =>
      match loadActives rest with
      | .error e => .error e
      | .ok others => .ok (if isTrueJ a then k :: others else others)

/-- Embedding of `_load_history`: a missing file yields the empty store (the
`active_superquotes` field keeps its `{}` initialisation); a
`json.JSONDecodeError` is caught, a warning logged, and the empty store
returned; a parsed non-dict document raises `AttributeError` at
`data.items()`; a dict document returns the parsed entries as the history
and the active-flagged keys as the active set. -/
def loadHistory (fs : FileState) :
    Except PyErr (List (String × JValue) × List String) :=
  match fs with
  | .absent => .ok ([], [])
  | .malformed => .ok ([], [])
  | .json (.jdict entries) =>
    match loadActives entries with
    | .ok act => .ok (entries, act)
    | .error e => .error e
  | .json _ => .error .attributeError

/-- Flag telling whether a loaded history value counts as active, i.e. is a
dictionary whose `active` member is the JSON boolean `true`. -/
def recordActiveJ : JValue → Bool
  | .jdict es => isTrueJ (List.lookup "active" es)
  | _ => false

/-!
Persistence (`_save_history`, lines 108-114).  The source opens the history
file in mode `'w'` - truncating it - and then `json.dump` writes the
serialised store sequentially.  There is no temporary file and no atomic
replace.  The on-disk contents are modelled as the character stream written
so far: a crash after `k` characters leaves exactly the first `k` characters
of the new serialisation (the previous contents were destroyed by the
truncating open), and `crash = none` is the completed write.
-/

def save_history_disk (serialized : List Char) (crash : Option Nat) :
    List Char :=
  match crash with
  | none => serialized
  | some k => serialized.take k

/-!
Failure supervisor: the outer `while attempt < 5` loop of `run` (lines
216-221 and 299-308).  Each iteration of that loop either fails during
`_setup_browser` (no reset) or succeeds in launching the browser, resets
`attempt` to 0, and runs cycles until the inner loop raises; in both cases
the iteration ends in the `except` handler, which increments `attempt` and
sleeps `30 * attempt`.  An iteration is summarised by a boolean: `true` when
the browser launch succeeded (so the counter was reset before the eventual
failure), `false` when the launch itself failed.
-/

/-- The `attempt = 0` reset performed after a successful browser launch. -/
def resetCounter (attempt : Nat) (success : Bool) : Nat :=
  if success then 0 else attempt

/-- One iteration of the outer loop: the possibly-reset counter is bumped by
the failure that ends the iteration, and the handler sleeps `30 * attempt`
seconds.  Returns the new counter and the sleep duration. -/
def loopBody (attempt : Nat) (success : Bool) : Nat × Nat :=
  let a := resetCounter attempt success + 1
  (a, 30 * a)

/-- The outer loop itself: while `attempt < 5`, consume the next iteration
outcome; once `attempt` reaches 5 the loop exits and the process terminates
(fatal).  Returns the sleep durations in order and whether the loop has
terminated. -/
def runSup (attempt : Nat) : List Bool → List Nat × Bool
  | [] => ([], decide (5 ≤ attempt))
  | o :: rest =>
    if 5 ≤ attempt then ([], true)
    else
      let p := loopBody attempt o
      let q := runSup p.1 rest
      (p.2 :: q.1, q.2)

/-- Fingerprints of the items carried by Added events, in emission order. -/
def addedIds (md5hex : String → String) (evs : List Event) : List String :=
  evs.filterMap (fun e => match e with
    | .added i => some (generate_id md5hex i)
    | .removed _ _ => none)

/-- Concrete items and records used by the evaluation witnesses below. -/
def c6item : Item :=
  { sport := "s", details := "d", «match» := "m", market := "mk",
    odds_old := "1,10", odds_new := "1,50", timestamp := "t1" }

def c8item : Item :=
  { sport := "s", details := "d", «match» := "m", market := "mk",
    odds_old := "1,20", odds_new := "2,00", timestamp := "t2" }

def c8rec : Record :=
  { sport := "s", details := "d", «match» := "o", market := "mk",
    odds_old := "1,10", odds_new := "1,30", timestamp := "t0",
    active := true }

def c10item : Item :=
  { sport := "s", details := "d", «match» := "m", market := "mk",
    odds_old := "1,20", odds_new := "2,00", timestamp := "t2" }

/-!
Lemmas about the association-list operations.
-/

theorem lookup_cons_eqn {β : Type} (a k : String) (b : β)
    (es : List (String × β)) :
    List.lookup a ((k, b) :: es) = if a = k then some b else List.lookup a es := by
  simp only [List.lookup]
  rcases eq_or_ne a k with h | h
  · simp [h]
  · simp [h, beq_false_of_ne h]

theorem lookup_map_set_self (k : String) (v : Record) :
    ∀ l : List (String × Record), (List.lookup k l).isSome →
    List.lookup k (l.map (fun p => if p.1 = k then (k, v) else p)) = some v := by
  intro l
  induction l with
  | nil => intro h; simp [List.lookup] at h
  | cons p rest ih =>
    intro h
    obtain ⟨a, b⟩ := p
    by_cases hak : a = k
    · simp [lookup_cons_eqn, hak]
    · rw [lookup_cons_eqn] at h
      simp only [Ne.symm hak, if_false] at h
      simpa [lookup_cons_eqn, hak, Ne.symm hak] using ih h

theorem lookup_map_set_ne (k k' : String) (v : Record) (hne : k' ≠ k) :
    ∀ l : List (String × Record),
    List.lookup k' (l.map (fun p => if p.1 = k then (k, v) else p)) =
      List.lookup k' l := by
  intro l
  induction l with
  | nil => simp
  | cons p rest ih =>
    obtain ⟨a, b⟩ := p
    by_cases hak : a = k
    · simp [lookup_cons_eqn, hak, hne, ih]
    · by_cases hk'a : k' = a
      · simp [lookup_cons_eqn, hak, hk'a, ih]
      · simp [lookup_cons_eqn, hak, hk'a, ih]

theorem lookup_map_mod_self (k : String) (f : Record → Record) :
    ∀ l : List (String × Record),
    List.lookup k (l.map (fun p => if p.1 = k then (p.1, f p.2) else p)) =
      (List.lookup k l).map f := by
  intro l
  induction l with
  | nil => simp
  | cons p rest ih =>
    obtain ⟨a, b⟩ := p
    by_cases hak : a = k
    · simp [lookup_cons_eqn, hak]
    · simp [lookup_cons_eqn, hak, Ne.symm hak, ih]

theorem lookup_map_mod_ne (k k' : String) (f : Record → Record) (hne : k' ≠ k) :
    ∀ l : List (String × Record),
    List.lookup k' (l.map (fun p => if p.1 = k then (p.1, f p.2) else p)) =
      List.lookup k' l := by
  intro l
  induction l with
  | nil => simp
  | cons p rest ih =>
    obtain ⟨a, b⟩ := p
    by_cases hak : a = k
    · simp [lookup_cons_eqn, hak, hne, ih]
    · by_cases hk'a : k' = a
      · simp [lookup_cons_eqn, hak, hk'a, ih]
      · simp [lookup_cons_eqn, hak, hk'a, ih]

theorem lookup_append_of_none {β : Type} (k : String)
    (l₂ : List (String × β)) :
    ∀ l : List (String × β), List.lookup k l = none →
    List.lookup k (l ++ l₂) = List.lookup k l₂ := by
  intro l
  induction l with
  | nil => intro _; simp
  | cons p rest ih =>
    intro h
    obtain ⟨a, b⟩ := p
    rw [lookup_cons_eqn] at h
    by_cases hak : k = a
    · simp [hak] at h
    · simp only [hak, if_false] at h
      simpa [lookup_cons_eqn, hak] using ih h

theorem lookup_append_left {β : Type} (k : String) (l₂ : List (String × β))
    (r : β) :
    ∀ l : List (String × β), List.lookup k l = some r →
    List.lookup k (l ++ l₂) = some r := by
  intro l
  induction l with
  | nil => intro h; simp [List.lookup] at h
  | cons p rest ih =>
    intro h
    obtain ⟨a, b⟩ := p
    rw [lookup_cons_eqn] at h
    by_cases hak : k = a
    · simp only [hak, if_true] at h
      simp [lookup_cons_eqn, hak, h]
    · simp only [hak, if_false] at h
      simpa [lookup_cons_eqn, hak] using ih h

theorem lookup_dinsert_self (l : List (String × Record)) (k : String)
    (v : Record) : List.lookup k (dinsert l k v) = some v := by
  unfold dinsert
  cases hl : List.lookup k l with
  | none =>
    rw [lookup_append_of_none k [(k, v)] l hl, lookup_cons_eqn]
    simp
  | some r =>
    exact lookup_map_set_self k v l (by simp [hl])

theorem lookup_dinsert_ne (l : List (String × Record)) (k k' : String)
    (v : Record) (h : k' ≠ k) :
    List.lookup k' (dinsert l k v) = List.lookup k' l := by
  unfold dinsert
  cases hl : List.lookup k l with
  | none =>
    cases hl' : List.lookup k' l with
    | none =>
      rw [lookup_append_of_none k' [(k, v)] l hl', lookup_cons_eqn]
      simp [h]
    | some r => exact lookup_append_left k' [(k, v)] r l hl'
  | some r => exact lookup_map_set_ne k k' v h l

theorem dmodify_isSome (l : List (String × Record)) (k : String)
    (f : Record → Record) :
    (dmodify l k f).isSome = (List.lookup k l).isSome := by
  unfold dmodify
  cases List.lookup k l <;> simp

theorem dmodify_eq_map (l l' : List (String × Record)) (k : String)
    (f : Record → Record) (h : dmodify l k f = some l') :
    l' = l.map (fun p => if p.1 = k then (p.1, f p.2) else p) := by
  unfold dmodify at h
  cases hl : List.lookup k l with
  | none => simp [hl] at h
  | some r =>
    rw [hl] at h
    simpa using h.symm

theorem lookup_dmodify_self (l l' : List (String × Record)) (k : String)
    (f : Record → Record) (h : dmodify l k f = some l') :
    List.lookup k l' = (List.lookup k l).map f := by
  rw [dmodify_eq_map l l' k f h]
  exact lookup_map_mod_self k f l

theorem lookup_dmodify_ne (l l' : List (String × Record)) (k k' : String)
    (f : Record → Record) (h : dmodify l k f = some l') (hne : k' ≠ k) :
    List.lookup k' l' = List.lookup k' l := by
  rw [dmodify_eq_map l l' k f h]
  exact lookup_map_mod_ne k k' f hne l

theorem lookup_isSome_dmodify (l l' : List (String × Record)) (k k' : String)
    (f : Record → Record) (h : dmodify l k f = some l') :
    (List.lookup k' l').isSome = (List.lookup k' l).isSome := by
  by_cases hk : k' = k
  · subst hk
    rw [lookup_dmodify_self l l' k' f h]
    cases List.lookup k' l <;> simp
  · rw [lookup_dmodify_ne l l' k k' f h hk]

theorem lookup_isSome_dinsert (l : List (String × Record)) (k k' : String)
    (v : Record) (h : (List.lookup k' l).isSome) :
    (List.lookup k' (dinsert l k v)).isSome := by
  by_cases hk : k' = k
  · subst hk
    rw [lookup_dinsert_self]
    simp
  · rw [lookup_dinsert_ne l k k' v hk]
    exact h

/-!
State-level lemmas about the diff step.
-/

/-- Invariant relating the two maps: a fingerprint is a key of the active set
exactly when the history store holds a record for it whose active flag is
true. -/
def activeInv (st : BotState) : Prop :=
  ∀ k, k ∈ st.active_superquotes ↔
    ∃ r, List.lookup k st.history = some r ∧ r.active = true

/-- The fingerprints computed during one cycle (`current_cycle_ids`): one per
item that passes the sentinel filter, in acquisition order. -/
def cycleIds (md5hex : String → String) (items : List Item) : List String :=
  (items.filter
      (fun d => decide (¬(d.«match» = "N/A" ∨ d.odds_new = "N/A")))).map
    (generate_id md5hex)

theorem processItem_ok_cases (md5hex : String → String) (st : BotState)
    (d : Item) (st' : BotState) (ids : List String) (evs : List Event)
    (h : processItem md5hex st d = .ok (st', ids, evs)) :
    ((d.«match» = "N/A" ∨ d.odds_new = "N/A") ∧ st' = st ∧ ids = [] ∧ evs = [])
    ∨ (¬(d.«match» = "N/A" ∨ d.odds_new = "N/A") ∧
        generate_id md5hex d ∈ st.active_superquotes ∧
        ∃ hist, dmodify st.history (generate_id md5hex d)
            (fun r => { r with timestamp := d.timestamp, active := true }) =
            some hist ∧
          st' = { st with history := hist } ∧
          ids = [generate_id md5hex d] ∧ evs = [])
    ∨ (¬(d.«match» = "N/A" ∨ d.odds_new = "N/A") ∧
        generate_id md5hex d ∉ st.active_superquotes ∧
        st' = { active_superquotes := st.active_superquotes ++ [generate_id md5hex d], history := dinsert st.history (generate_id md5hex d) (Record.ofItem d) } ∧
        ids = [generate_id md5hex d] ∧ evs = [.added d]) := by
  by_cases hv : d.«match» = "N/A" ∨ d.odds_new = "N/A"
  · left
    simp only [processItem, hv, if_true, Except.ok.injEq, Prod.mk.injEq] at h
    exact ⟨hv, h.1.symm, h.2.1.symm, h.2.2.symm⟩
  · by_cases hm : generate_id md5hex d ∈ st.active_superquotes
    · right; left
      cases hdm : dmodify st.history (generate_id md5hex d)
          (fun r => { r with timestamp := d.timestamp, active := true }) with
      | none =>
        simp only [processItem, hv, if_false, hm, if_true, hdm] at h
        exact Except.noConfusion h
      | some hist =>
        simp only [processItem, hv, if_false, hm, if_true, hdm,
          Except.ok.injEq, Prod.mk.injEq] at h
        exact ⟨hv, hm, hist, rfl, h.1.symm, h.2.1.symm, h.2.2.symm⟩
    · right; right
      simp only [processItem, hv, if_false, hm, Except.ok.injEq,
        Prod.mk.injEq] at h
      exact ⟨hv, hm, h.1.symm, h.2.1.symm, h.2.2.symm⟩

theorem processItem_inv (md5hex : String → String) (st : BotState) (d : Item)
    (st' : BotState) (ids : List String) (evs : List Event)
    (hI : activeInv st)
    (h : processItem md5hex st d = .ok (st', ids, evs)) : activeInv st' := by
  rcases processItem_ok_cases md5hex st d st' ids evs h with
    ⟨_, rfl, _, _⟩ | ⟨_, hm, hist, hdm, rfl, _, _⟩ | ⟨_, hm, rfl, _, _⟩
  · exact hI
  · intro k
    by_cases hk : k = generate_id md5hex d
    · have hsome : (List.lookup (generate_id md5hex d) st.history).isSome := by
        rw [← dmodify_isSome st.history (generate_id md5hex d)
          (fun r => { r with timestamp := d.timestamp, active := true }), hdm]
        rfl
      obtain ⟨r, hr⟩ := Option.isSome_iff_exists.mp hsome
      have hl := lookup_dmodify_self st.history hist (generate_id md5hex d) _ hdm
      rw [hr] at hl
      simp at hl
      subst hk
      constructor
      · intro _
        exact ⟨_, hl, rfl⟩
      · intro _
        exact hm
    · have hl := lookup_dmodify_ne st.history hist (generate_id md5hex d) k _
        hdm hk
      simpa [hl] using hI k
  · intro k
    by_cases hk : k = generate_id md5hex d
    · have hlk := lookup_dinsert_self st.history (generate_id md5hex d)
        (Record.ofItem d)
      subst hk
      constructor
      · intro _
        exact ⟨Record.ofItem d, hlk, rfl⟩
      · intro _
        simp
    · have hl := lookup_dinsert_ne st.history (generate_id md5hex d) k
        (Record.ofItem d) hk
      simp only [List.mem_append, List.mem_singleton, hk, or_false, hl]
      exact hI k

theorem itemsLoop_cons_ok (md5hex : String → String) (st : BotState)
    (d : Item) (rest : List Item) (st2 : BotState) (ids : List String)
    (evs : List Event)
    (h : itemsLoop md5hex st (d :: rest) = .ok (st2, ids, evs)) :
    ∃ st1 ids1 evs1 ids2 evs2,
      processItem md5hex st d = .ok (st1, ids1, evs1) ∧
      itemsLoop md5hex st1 rest = .ok (st2, ids2, evs2) ∧
      ids = ids1 ++ ids2 ∧ evs = evs1 ++ evs2 := by
  cases hp : processItem md5hex st d with
  | error e =>
    simp only [itemsLoop, hp] at h
    exact Except.noConfusion h
  | ok t =>
    obtain ⟨st1, ids1, evs1⟩ := t
    cases hl : itemsLoop md5hex st1 rest with
    | error e =>
      simp only [itemsLoop, hp, hl] at h
      exact Except.noConfusion h
    | ok t2 =>
      obtain ⟨st2', ids2, evs2⟩ := t2
      simp only [itemsLoop, hp, hl, Except.ok.injEq, Prod.mk.injEq] at h
      obtain ⟨h1, h2, h3⟩ := h
      exact ⟨st1, ids1, evs1, ids2, evs2, rfl, h1 ▸ hl, h2.symm, h3.symm⟩

theorem itemsLoop_ids (md5hex : String → String) :
    ∀ (items : List Item) (st st' : BotState) (ids : List String)
      (evs : List Event),
    itemsLoop md5hex st items = .ok (st', ids, evs) →
    ids = cycleIds md5hex items := by
  intro items
  induction items with
  | nil =>
    intro st st' ids evs h
    simp only [itemsLoop, Except.ok.injEq, Prod.mk.injEq] at h
    simp [cycleIds, ← h.2.1]
  | cons d rest ih =>
    intro st st' ids evs h
    obtain ⟨st1, ids1, evs1, ids2, evs2, hp, hl, hids, hevs⟩ :=
      itemsLoop_cons_ok md5hex st d rest st' ids evs h
    rcases processItem_ok_cases md5hex st d st1 ids1 evs1 hp with
      ⟨hv, _, rfl, _⟩ | ⟨hv, _, _, _, _, rfl, _⟩ | ⟨hv, _, _, rfl, _⟩
    · rcases hv with h1 | h1 <;>
        simp [hids, cycleIds, List.filter_cons, h1, ih st1 st' ids2 evs2 hl]
    · obtain ⟨h1, h2⟩ := not_or.mp hv
      simp [hids, cycleIds, List.filter_cons, h1, h2, ih st1 st' ids2 evs2 hl]
    · obtain ⟨h1, h2⟩ := not_or.mp hv
      simp [hids, cycleIds, List.filter_cons, h1, h2, ih st1 st' ids2 evs2 hl]

theorem itemsLoop_active (md5hex : String → String) :
    ∀ (items : List Item) (st st' : BotState) (ids : List String)
      (evs : List Event),
    itemsLoop md5hex st items = .ok (st', ids, evs) →
    (∃ newIds, st'.active_superquotes = st.active_superquotes ++ newIds ∧
        List.Sublist newIds ids) ∧
    ∀ b ∈ ids, b ∈ st'.active_superquotes := by
  intro items
  induction items with
  | nil =>
    intro st st' ids evs h
    simp only [itemsLoop, Except.ok.injEq, Prod.mk.injEq] at h
    obtain ⟨h1, h2, _⟩ := h
    subst h1
    refine ⟨⟨[], by simp, by simp [← h2]⟩, ?_⟩
    intro b hb
    rw [← h2] at hb
    simp at hb
  | cons d rest ih =>
    intro st st' ids evs h
    obtain ⟨st1, ids1, evs1, ids2, evs2, hp, hl, hids, _⟩ :=
      itemsLoop_cons_ok md5hex st d rest st' ids evs h
    obtain ⟨⟨n, hact, hsub⟩, hmem⟩ := ih st1 st' ids2 evs2 hl
    rcases processItem_ok_cases md5hex st d st1 ids1 evs1 hp with
      ⟨_, rfl, rfl, _⟩ | ⟨_, hm, hist, _, hst1, rfl, _⟩ | ⟨_, hm, hst1, rfl, _⟩
    · subst hids
      exact ⟨⟨n, hact, by simpa using hsub⟩, by simpa using hmem⟩
    · subst hids hst1
      refine ⟨⟨n, hact, ?_⟩, ?_⟩
      · simpa using List.Sublist.cons (generate_id md5hex d) hsub
      · intro b hb
        rcases List.mem_cons.mp (by simpa using hb) with rfl | hb2
        · rw [hact]
          exact List.mem_append_left n hm
        · exact hmem b hb2
    · subst hids hst1
      simp only at hact
      refine ⟨⟨generate_id md5hex d :: n, ?_, ?_⟩, ?_⟩
      · rw [hact, List.append_assoc]
        rfl
      · simpa using List.Sublist.cons₂ (generate_id md5hex d) hsub
      · intro b hb
        rcases List.mem_cons.mp (by simpa using hb) with rfl | hb2
        · rw [hact]
          exact List.mem_append_left n (by simp)
        · exact hmem b hb2

theorem itemsLoop_history (md5hex : String → String) :
    ∀ (items : List Item) (st st' : BotState) (ids : List String)
      (evs : List Event),
    itemsLoop md5hex st items = .ok (st', ids, evs) →
    (∀ k, (List.lookup k st.history).isSome →
        (List.lookup k st'.history).isSome) ∧
    ∀ b ∈ ids, (List.lookup b st'.history).isSome := by
  intro items
  induction items with
  | nil =>
    intro st st' ids evs h
    simp only [itemsLoop, Except.ok.injEq, Prod.mk.injEq] at h
    obtain ⟨h1, h2, _⟩ := h
    subst h1
    exact ⟨fun k hk => hk, by simp [← h2]⟩
  | cons d rest ih =>
    intro st st' ids evs h
    obtain ⟨st1, ids1, evs1, ids2, evs2, hp, hl, hids, _⟩ :=
      itemsLoop_cons_ok md5hex st d rest st' ids evs h
    obtain ⟨hpres, hmem⟩ := ih st1 st' ids2 evs2 hl
    rcases processItem_ok_cases md5hex st d st1 ids1 evs1 hp with
      ⟨_, rfl, rfl, _⟩ | ⟨_, hm, hist, hdm, hst1, rfl, _⟩ | ⟨_, hm, hst1, rfl, _⟩
    · subst hids
      exact ⟨hpres, by simpa using hmem⟩
    · subst hids
      have hh1 : st1.history = hist := by rw [hst1]
      have hpres1 : ∀ k, (List.lookup k st.history).isSome →
          (List.lookup k st1.history).isSome := by
        intro k hk
        rw [hh1,
          lookup_isSome_dmodify st.history hist (generate_id md5hex d) k _ hdm]
        exact hk
      refine ⟨fun k hk => hpres k (hpres1 k hk), ?_⟩
      intro b hb
      rcases List.mem_cons.mp (by simpa using hb) with rfl | hb2
      · refine hpres (generate_id md5hex d) (hpres1 (generate_id md5hex d) ?_)
        rw [← dmodify_isSome st.history (generate_id md5hex d)
          (fun r => { r with timestamp := d.timestamp, active := true }), hdm]
        rfl
      · exact hmem b hb2
    · subst hids
      have hh1 : st1.history =
          dinsert st.history (generate_id md5hex d) (Record.ofItem d) := by
        rw [hst1]
      have hpres1 : ∀ k, (List.lookup k st.history).isSome →
          (List.lookup k st1.history).isSome := by
        intro k hk
        rw [hh1]
        exact lookup_isSome_dinsert st.history (generate_id md5hex d) k
          (Record.ofItem d) hk
      refine ⟨fun k hk => hpres k (hpres1 k hk), ?_⟩
      intro b hb
      rcases List.mem_cons.mp (by simpa using hb) with rfl | hb2
      · refine hpres (generate_id md5hex d) ?_
        rw [hh1, lookup_dinsert_self]
        rfl
      · exact hmem b hb2

theorem itemsLoop_events (md5hex : String → String) :
    ∀ (items : List Item) (st st' : BotState) (ids : List String)
      (evs : List Event),
    itemsLoop md5hex st items = .ok (st', ids, evs) →
    ∃ A, evs = A.map Event.added ∧ List.Sublist A items := by
  intro items
  induction items with
  | nil =>
    intro st st' ids evs h
    simp only [itemsLoop, Except.ok.injEq, Prod.mk.injEq] at h
    exact ⟨[], by simp [← h.2.2], List.nil_sublist []⟩
  | cons d rest ih =>
    intro st st' ids evs h
    obtain ⟨st1, ids1, evs1, ids2, evs2, hp, hl, _, hevs⟩ :=
      itemsLoop_cons_ok md5hex st d rest st' ids evs h
    obtain ⟨A, hA, hAs⟩ := ih st1 st' ids2 evs2 hl
    rcases processItem_ok_cases md5hex st d st1 ids1 evs1 hp with
      ⟨_, _, _, rfl⟩ | ⟨_, _, _, _, _, _, rfl⟩ | ⟨_, _, _, _, rfl⟩
    · exact ⟨A, by simpa [hA] using hevs, List.Sublist.cons d hAs⟩
    · exact ⟨A, by simpa [hA] using hevs, List.Sublist.cons d hAs⟩
    · exact ⟨d :: A, by simpa [hA] using hevs, List.Sublist.cons₂ d hAs⟩

theorem itemsLoop_inv (md5hex : String → String) :
    ∀ (items : List Item) (st st' : BotState) (ids : List String)
      (evs : List Event), activeInv st →
    itemsLoop md5hex st items = .ok (st', ids, evs) → activeInv st' := by
  intro items
  induction items with
  | nil =>
    intro st st' ids evs hI h
    simp only [itemsLoop, Except.ok.injEq, Prod.mk.injEq] at h
    exact h.1 ▸ hI
  | cons d rest ih =>
    intro st st' ids evs hI h
    obtain ⟨st1, ids1, evs1, ids2, evs2, hp, hl, _, _⟩ :=
      itemsLoop_cons_ok md5hex st d rest st' ids evs h
    exact ih st1 st' ids2 evs2
      (processItem_inv md5hex st d st1 ids1 evs1 hI hp) hl

/-- Second-pass behaviour of the item loop: when every valid item's
fingerprint is already in the active set and present in the history, the
loop succeeds, emits no events, and leaves the active set untouched. -/
theorem itemsLoop_stable (md5hex : String → String) :
    ∀ (items : List Item) (st : BotState),
    (∀ d ∈ items, ¬(d.«match» = "N/A" ∨ d.odds_new = "N/A") →
        generate_id md5hex d ∈ st.active_superquotes ∧
        (List.lookup (generate_id md5hex d) st.history).isSome) →
    ∃ st', itemsLoop md5hex st items = .ok (st', cycleIds md5hex items, []) ∧
      st'.active_superquotes = st.active_superquotes ∧
      ∀ k, (List.lookup k st'.history).isSome =
        (List.lookup k st.history).isSome := by
  intro items
  induction items with
  | nil =>
    intro st _
    exact ⟨st, by simp [itemsLoop, cycleIds], rfl, fun k => rfl⟩
  | cons d rest ih =>
    intro st hall
    by_cases hv : d.«match» = "N/A" ∨ d.odds_new = "N/A"
    · obtain ⟨st', hloop, hact, hpres⟩ :=
        ih st (fun e he hve => hall e (List.mem_cons_of_mem d he) hve)
      refine ⟨st', ?_, hact, hpres⟩
      have hp : processItem md5hex st d = .ok (st, [], []) := by
        simp [processItem, hv]
      have hcyc : cycleIds md5hex (d :: rest) = cycleIds md5hex rest := by
        rcases hv with h1 | h1 <;> simp [cycleIds, List.filter_cons, h1]
      simp only [itemsLoop, hp, hloop, hcyc]
      rfl
    · obtain ⟨hm, hsome⟩ := hall d (List.mem_cons_self d rest) hv
      cases hdm : dmodify st.history (generate_id md5hex d)
          (fun r => { r with timestamp := d.timestamp, active := true }) with
      | none =>
        exfalso
        have := dmodify_isSome st.history (generate_id md5hex d)
          (fun r => { r with timestamp := d.timestamp, active := true })
        rw [hdm] at this
        rw [← this] at hsome
        exact Bool.noConfusion hsome
      | some hist =>
        have hpres1 : ∀ k, (List.lookup k ({ st with history := hist } :
            BotState).history).isSome = (List.lookup k st.history).isSome := by
          intro k
          exact lookup_isSome_dmodify st.history hist (generate_id md5hex d) k
            _ hdm
        obtain ⟨st', hloop, hact, hpres⟩ :=
          ih { st with history := hist } (by
            intro e he hve
            obtain ⟨hm2, hs2⟩ := hall e (List.mem_cons_of_mem d he) hve
            exact ⟨hm2, by rw [hpres1]; exact hs2⟩)
        have hp : processItem md5hex st d =
            .ok ({ st with history := hist }, [generate_id md5hex d], []) := by
          simp [processItem, hv, hm, hdm]
        have hcyc : cycleIds md5hex (d :: rest) =
            generate_id md5hex d :: cycleIds md5hex rest := by
          obtain ⟨h1, h2⟩ := not_or.mp hv
          simp [cycleIds, List.filter_cons, h1, h2]
        refine ⟨st', ?_, hact, fun k => (hpres k).trans (hpres1 k)⟩
        simp only [itemsLoop, hp, hloop, hcyc]
        rfl

theorem removeLoop_cons_ok (st : BotState) (bid : String)
    (rest : List String) (st' : BotState) (evs : List Event)
    (h : removeLoop st (bid :: rest) = .ok (st', evs)) :
    ∃ bet hist evs',
      List.lookup bid st.history = some bet ∧
      dmodify st.history bid (fun r => { r with active := false }) =
        some hist ∧
      removeLoop { active_superquotes :=
          st.active_superquotes.filter (fun b => b ≠ bid), history := hist }
        rest = .ok (st', evs') ∧
      evs = .removed bid bet :: evs' := by
  cases hlk : List.lookup bid st.history with
  | none =>
    simp only [removeLoop, hlk] at h
    exact Except.noConfusion h
  | some bet =>
    cases hdm : dmodify st.history bid (fun r => { r with active := false }) with
    | none =>
      simp only [removeLoop, hlk, hdm] at h
      exact Except.noConfusion h
    | some hist =>
      cases hrl : removeLoop { active_superquotes := st.active_superquotes.filter (fun b => b ≠ bid), history := hist } rest with
      | error e =>
        simp only [removeLoop, hlk, hdm, hrl] at h
        exact Except.noConfusion h
      | ok t =>
        obtain ⟨st'', evs'⟩ := t
        simp only [removeLoop, hlk, hdm, hrl, Except.ok.injEq,
          Prod.mk.injEq] at h
        obtain ⟨h1, h2⟩ := h
        exact ⟨bet, hist, evs', rfl, rfl, h1 ▸ hrl, h2.symm⟩

theorem filter_ne_filter_notmem (bid : String) (rest : List String) :
    ∀ l : List String,
    (l.filter (fun b => decide (b ≠ bid))).filter
        (fun b => decide (b ∉ rest)) =
      l.filter (fun b => decide (b ∉ bid :: rest)) := by
  intro l
  rw [List.filter_filter]
  apply List.filter_congr
  intro x _
  by_cases h1 : x = bid <;> by_cases h2 : x ∈ rest <;> simp [h1, h2]

theorem removeLoop_active :
    ∀ (rids : List String) (st st' : BotState) (evs : List Event),
    removeLoop st rids = .ok (st', evs) →
    st'.active_superquotes =
      st.active_superquotes.filter (fun b => decide (b ∉ rids)) := by
  intro rids
  induction rids with
  | nil =>
    intro st st' evs h
    simp only [removeLoop, Except.ok.injEq, Prod.mk.injEq] at h
    simp [← h.1]
  | cons bid rest ih =>
    intro st st' evs h
    obtain ⟨bet, hist, evs', _, _, hrl, _⟩ :=
      removeLoop_cons_ok st bid rest st' evs h
    rw [ih _ st' evs' hrl]
    exact filter_ne_filter_notmem bid rest st.active_superquotes

theorem removeLoop_events :
    ∀ (rids : List String) (st st' : BotState) (evs : List Event),
    removeLoop st rids = .ok (st', evs) →
    ∃ R : List (String × Record),
      evs = R.map (fun p => Event.removed p.1 p.2) ∧
      R.map Prod.fst = rids := by
  intro rids
  induction rids with
  | nil =>
    intro st st' evs h
    simp only [removeLoop, Except.ok.injEq, Prod.mk.injEq] at h
    exact ⟨[], by simp [← h.2], rfl⟩
  | cons bid rest ih =>
    intro st st' evs h
    obtain ⟨bet, hist, evs', _, _, hrl, hevs⟩ :=
      removeLoop_cons_ok st bid rest st' evs h
    obtain ⟨R, hR1, hR2⟩ := ih _ st' evs' hrl
    exact ⟨(bid, bet) :: R, by simp [hevs, hR1], by simp [hR2]⟩

theorem removeLoop_history :
    ∀ (rids : List String) (st st' : BotState) (evs : List Event),
    removeLoop st rids = .ok (st', evs) →
    ∀ k, (List.lookup k st'.history).isSome =
      (List.lookup k st.history).isSome := by
  intro rids
  induction rids with
  | nil =>
    intro st st' evs h
    simp only [removeLoop, Except.ok.injEq, Prod.mk.injEq] at h
    rw [← h.1]
    exact fun k => rfl
  | cons bid rest ih =>
    intro st st' evs h
    obtain ⟨bet, hist, evs', _, hdm, hrl, _⟩ :=
      removeLoop_cons_ok st bid rest st' evs h
    intro k
    rw [ih _ st' evs' hrl k]
    exact lookup_isSome_dmodify st.history hist bid k _ hdm

theorem removeLoop_inv :
    ∀ (rids : List String) (st st' : BotState) (evs : List Event),
    activeInv st → removeLoop st rids = .ok (st', evs) → activeInv st' := by
  intro rids
  induction rids with
  | nil =>
    intro st st' evs hI h
    simp only [removeLoop, Except.ok.injEq, Prod.mk.injEq] at h
    exact h.1 ▸ hI
  | cons bid rest ih =>
    intro st st' evs hI h
    obtain ⟨bet, hist, evs', hlk, hdm, hrl, _⟩ :=
      removeLoop_cons_ok st bid rest st' evs h
    refine ih _ st' evs' ?_ hrl
    intro k
    by_cases hk : k = bid
    · subst hk
      have hl := lookup_dmodify_self st.history hist k _ hdm
      rw [hlk] at hl
      simp at hl
      constructor
      · intro hmem
        exact absurd (List.of_mem_filter hmem) (by simp)
      · intro hex
        obtain ⟨r, hr1, hr2⟩ := hex
        rw [hl] at hr1
        cases hr1
        exact Bool.noConfusion hr2
    · constructor
      · intro hmem
        have := List.of_mem_filter hmem
        have hmem2 := List.mem_of_mem_filter hmem
        obtain ⟨r, hr1, hr2⟩ := (hI k).mp hmem2
        exact ⟨r, by
          rw [lookup_dmodify_ne st.history hist bid k _ hdm hk]; exact hr1, hr2⟩
      · intro hex
        obtain ⟨r, hr1, hr2⟩ := hex
        rw [lookup_dmodify_ne st.history hist bid k _ hdm hk] at hr1
        refine List.mem_filter.mpr ⟨(hI k).mpr ⟨r, hr1, hr2⟩, by simp [hk]⟩

theorem processCycle_ok_cases (md5hex : String → String) (st : BotState)
    (items : List Item) (st2 : BotState) (ids : List String)
    (evs : List Event)
    (h : processCycle md5hex st items = .ok (st2, ids, evs)) :
    ∃ st1 evs1 evs2,
      itemsLoop md5hex st items = .ok (st1, ids, evs1) ∧
      removeLoop st1
        (st1.active_superquotes.filter (fun b => decide (b ∉ ids))) =
        .ok (st2, evs2) ∧
      evs = evs1 ++ evs2 := by
  cases hil : itemsLoop md5hex st items with
  | error e =>
    simp only [processCycle, hil] at h
    exact Except.noConfusion h
  | ok t =>
    obtain ⟨st1, ids1, evs1⟩ := t
    cases hrl : removeLoop st1 (st1.active_superquotes.filter (fun b => decide (b ∉ ids1))) with
    | error e =>
      simp only [processCycle, hil, hrl] at h
      exact Except.noConfusion h
    | ok t2 =>
      obtain ⟨st2', evs2⟩ := t2
      simp only [processCycle, hil, hrl, Except.ok.injEq, Prod.mk.injEq] at h
      obtain ⟨h1, h2, h3⟩ := h
      refine ⟨st1, evs1, evs2, ?_, ?_, h3.symm⟩
      · rw [h2]
      · rw [← h2]
        exact h1 ▸ hrl

theorem processCycle_inv (md5hex : String → String) (st : BotState)
    (items : List Item) (st' : BotState) (ids : List String)
    (evs : List Event) (hI : activeInv st)
    (h : processCycle md5hex st items = .ok (st', ids, evs)) :
    activeInv st' := by
  obtain ⟨st1, evs1, evs2, hil, hrl, _⟩ :=
    processCycle_ok_cases md5hex st items st' ids evs h
  exact removeLoop_inv _ st1 st' evs2
    (itemsLoop_inv md5hex items st st1 ids evs1 hI hil) hrl

/-!
Lemmas about the startup load.
-/

theorem loadActives_mem :
    ∀ (entries : List (String × JValue)) (act : List String),
    loadActives entries = .ok act →
    ∀ k, k ∈ act ↔ ∃ v, (k, v) ∈ entries ∧ recordActiveJ v = true := by
  intro entries
  induction entries with
  | nil =>
    intro act h k
    simp only [loadActives, Except.ok.injEq] at h
    simp [← h]
  | cons p rest ih =>
    intro act h k
    obtain ⟨k0, v0⟩ := p
    cases v0 with
    | jbool b =>
      simp only [loadActives, jgetActive] at h
      exact Except.noConfusion h
    | jother =>
      simp only [loadActives, jgetActive] at h
      exact Except.noConfusion h
    | jdict es =>
      cases hrest : loadActives rest with
      | error e =>
        simp only [loadActives, jgetActive, hrest] at h
        exact Except.noConfusion h
      | ok others =>
        simp only [loadActives, jgetActive, hrest, Except.ok.injEq] at h
        subst h
        by_cases hact : isTrueJ (List.lookup "active" es) = true
        · rw [if_pos hact]
          constructor
          · intro hk
            rcases List.mem_cons.mp hk with rfl | hk2
            · exact ⟨.jdict es, by simp, by simpa [recordActiveJ] using hact⟩
            · obtain ⟨v, hv1, hv2⟩ := (ih others hrest k).mp hk2
              exact ⟨v, List.mem_cons_of_mem _ hv1, hv2⟩
          · intro ⟨v, hv1, hv2⟩
            rcases List.mem_cons.mp hv1 with heq | hv3
            · cases heq
              exact List.mem_cons_self _ _
            · exact List.mem_cons_of_mem _ ((ih others hrest k).mpr ⟨v, hv3, hv2⟩)
        · rw [if_neg hact]
          rw [ih others hrest k]
          constructor
          · intro ⟨v, hv1, hv2⟩
            exact ⟨v, List.mem_cons_of_mem _ hv1, hv2⟩
          · intro ⟨v, hv1, hv2⟩
            rcases List.mem_cons.mp hv1 with heq | hv3
            · cases heq
              exact absurd (by simpa [recordActiveJ] using hv2) hact
            · exact ⟨v, hv3, hv2⟩

theorem lookup_eq_some_iff_mem_of_nodup {β : Type} (k : String) (v : β) :
    ∀ l : List (String × β), (l.map Prod.fst).Nodup →
    (List.lookup k l = some v ↔ (k, v) ∈ l) := by
  intro l
  induction l with
  | nil => intro _; simp [List.lookup]
  | cons p rest ih =>
    intro hnd
    obtain ⟨a, b⟩ := p
    simp only [List.map_cons, List.nodup_cons] at hnd
    obtain ⟨ha, hnd2⟩ := hnd
    rw [lookup_cons_eqn]
    by_cases hak : k = a
    · subst hak
      simp only [if_true]
      constructor
      · intro hv
        cases hv
        exact List.mem_cons_self _ _
      · intro hv
        rcases List.mem_cons.mp hv with heq | hv2
        · cases heq
          rfl
        · exact absurd (List.mem_map_of_mem Prod.fst hv2) (by simpa using ha)
    · simp only [hak, if_false]
      rw [ih hnd2]
      constructor
      · intro hv
        exact List.mem_cons_of_mem _ hv
      · intro hv
        rcases List.mem_cons.mp hv with heq | hv2
        · cases heq
          exact absurd rfl hak
        · exact hv2

/-!
Claim theorems.
-/

/-- C1: at every point between cycles - right after the startup load and
after any diff step run from a state already satisfying it - a fingerprint
is a key of the in-memory active set exactly when the history store holds a
record for it whose active flag is true.  Part one states the property for
the state produced by `_load_history` (for any file state; the parsed
dictionary has unique keys, as `json.load` guarantees); part two shows one
full diff step preserves the invariant. -/
theorem C1_active_set_iff_history_active :
    (∀ fs data act, loadHistory fs = .ok (data, act) →
        (data.map Prod.fst).Nodup →
        ∀ k, k ∈ act ↔
          ∃ v, List.lookup k data = some v ∧ recordActiveJ v = true)
    ∧ (∀ (md5hex : String → String) (st : BotState) (items : List Item)
        (st' : BotState) (ids : List String) (evs : List Event),
        activeInv st → processCycle md5hex st items = .ok (st', ids, evs) →
        activeInv st') := by
  constructor
  · intro fs data act h hnd k
    cases fs with
    | absent =>
      simp only [loadHistory, Except.ok.injEq, Prod.mk.injEq] at h
      obtain ⟨h1, h2⟩ := h
      subst h1 h2
      simp [List.lookup]
    | malformed =>
      simp only [loadHistory, Except.ok.injEq, Prod.mk.injEq] at h
      obtain ⟨h1, h2⟩ := h
      subst h1 h2
      simp [List.lookup]
    | json v =>
      cases v with
      | jbool b =>
        simp only [loadHistory] at h
        exact Except.noConfusion h
      | jother =>
        simp only [loadHistory] at h
        exact Except.noConfusion h
      | jdict entries =>
        cases hla : loadActives entries with
        | error e =>
          simp only [loadHistory, hla] at h
          exact Except.noConfusion h
        | ok act' =>
          simp only [loadHistory, hla, Except.ok.injEq, Prod.mk.injEq] at h
          obtain ⟨h1, h2⟩ := h
          subst h1 h2
          rw [loadActives_mem entries act' hla k]
          constructor
          · rintro ⟨v, hv1, hv2⟩
            exact ⟨v, (lookup_eq_some_iff_mem_of_nodup k v entries hnd).mpr hv1,
              hv2⟩
          · rintro ⟨v, hv1, hv2⟩
            exact ⟨v, (lookup_eq_some_iff_mem_of_nodup k v entries hnd).mp hv1,
              hv2⟩
  · intro md5hex st items st' ids evs hI h
    exact processCycle_inv md5hex st items st' ids evs hI h

theorem C1_witness :
    (("a" ∈ (["a"] : List String)) ↔
      ∃ v, List.lookup "a"
          [("a", JValue.jdict [("active", JValue.jbool true)])] = some v ∧
        recordActiveJ v = true)
    ∧ activeInv { active_superquotes := [], history := [] } :=
  ⟨C1_active_set_iff_history_active.1
      (.json (.jdict [("a", .jdict [("active", .jbool true)])]))
      [("a", JValue.jdict [("active", JValue.jbool true)])] ["a"] rfl
      (by simp) "a",
    C1_active_set_iff_history_active.2 (fun s => s)
      { active_superquotes := [], history := [] } []
      { active_superquotes := [], history := [] } [] []
      (by intro k; simp [List.lookup]) rfl⟩

/-- C7: the fingerprint is computed from the match, market and details
fields alone - two items that agree on those three fields receive the same
id whatever their odds (or other) fields contain, for every hash function
(hence for MD5), and the computation is a pure function of those strings
with no randomness or time component. -/
theorem C7_fingerprint_identity_stable (md5hex : String → String)
    (i1 i2 : Item) (h1 : i1.«match» = i2.«match»)
    (h2 : i1.market = i2.market) (h3 : i1.details = i2.details) :
    generate_id md5hex i1 = generate_id md5hex i2 := by
  simp [generate_id, unique_str, h1, h2, h3]

theorem C7_witness :
    generate_id (fun s => s)
        { sport := "Soccer", details := "Boost", «match» := "A vs B",
          market := "Winner", odds_old := "1,50", odds_new := "1,80",
          timestamp := "t1" } =
      generate_id (fun s => s)
        { sport := "Tennis", details := "Boost", «match» := "A vs B",
          market := "Winner", odds_old := "2,10", odds_new := "2,50",
          timestamp := "t2" } :=
  C7_fingerprint_identity_stable (fun s => s) _ _ rfl rfl rfl

/-- C9: the outer retry loop of `run`: a failing iteration bumps the
counter and sleeps 30 times the new count, so the n-th consecutive failure
sleeps 30*n and the durations are non-decreasing; a successful browser
launch resets the counter to 0 (the failure ending that session then makes
it 1); five consecutive failures terminate the loop, sleeping
30,60,90,120,150 on the way; fewer than five consecutive failures never
terminate it, and four failures followed by a success do not. -/
theorem C9_supervisor_backoff_and_threshold :
    (∀ a, resetCounter a true = 0)
    ∧ (∀ a, loopBody a false = (a + 1, 30 * (a + 1)))
    ∧ (∀ a, (loopBody a false).2 ≤ (loopBody (a + 1) false).2)
    ∧ runSup 0 (List.replicate 5 false) = ([30, 60, 90, 120, 150], true)
    ∧ (∀ n, n < 5 → (runSup 0 (List.replicate n false)).2 = false)
    ∧ (runSup 0 (List.replicate 4 false ++ [true])).2 = false := by
  refine ⟨fun a => rfl, fun a => rfl, fun a => ?_, by decide, ?_, by decide⟩
  · show 30 * (a + 1) ≤ 30 * (a + 1 + 1)
    omega
  · intro n hn
    interval_cases n <;> decide

theorem C9_witness :
    3 < 5 ∧ (runSup 0 (List.replicate 3 false)).2 = false :=
  ⟨by decide, C9_supervisor_backoff_and_threshold.2.2.2.2.1 3 (by decide)⟩

/-- C2 counterexample: `_save_history` opens the history file with mode 'w'
(truncating it) and writes the new serialisation in place; a crash after one
character leaves a file that is neither the complete previous contents nor
the complete new contents, so the write-temp-then-replace atomicity stated
by the claim does not hold. -/
theorem C2_counterexample :
    save_history_disk ['N', 'E', 'W'] (some 1) ≠ ['O', 'L', 'D'] ∧
    save_history_disk ['N', 'E', 'W'] (some 1) ≠ ['N', 'E', 'W'] := by
  decide

/-- C2 amended: persist writes the serialised store over the history file
directly (truncate, then sequential write): a completed persist stores
exactly the new serialisation, while a crash after k characters leaves
exactly the first k characters of the new serialisation - always a prefix
of the new contents, with the previous contents destroyed by the truncating
open. -/
theorem C2_persist_overwrites_in_place (serialized : List Char) (k : Nat) :
    save_history_disk serialized none = serialized ∧
    save_history_disk serialized (some k) = serialized.take k ∧
    ∃ t, save_history_disk serialized (some k) ++ t = serialized :=
  ⟨rfl, rfl, ⟨serialized.drop k, List.take_append_drop k serialized⟩⟩

/-- C5 counterexample: `_load_history` catches only `json.JSONDecodeError`;
file contents that are valid JSON but not an object (for example the list
`[1, 2]`) reach `data.items()` and raise `AttributeError` instead of
producing an empty store, so load does not survive every file contents. -/
theorem C5_counterexample :
    loadHistory (.json .jother) = .error .attributeError := rfl

/-- C5 amended: an absent file and a file that fails JSON decoding both
yield the empty store (the decode failure also logs a warning); a document
parsing to an object all of whose member values are objects loads
successfully; but a document parsing to a non-object, or to an object with
some non-object member value, raises `AttributeError` out of
`_load_history`. -/
theorem C5_load_decode_behaviour :
    loadHistory .absent = .ok ([], [])
    ∧ loadHistory .malformed = .ok ([], [])
    ∧ (∀ entries act, loadActives entries = .ok act →
        loadHistory (.json (.jdict entries)) = .ok (entries, act))
    ∧ (∀ entries : List (String × JValue),
        (∀ p ∈ entries, ∃ es, p.2 = JValue.jdict es) →
        ∃ act, loadActives entries = .ok act)
    ∧ loadHistory (.json .jother) = .error .attributeError
    ∧ loadHistory (.json (.jdict [("x", .jother)])) =
        .error .attributeError := by
  refine ⟨rfl, rfl, ?_, ?_, rfl, rfl⟩
  · intro entries act hla
    simp [loadHistory, hla]
  · intro entries
    induction entries with
    | nil => exact fun _ => ⟨[], rfl⟩
    | cons p rest ih =>
      intro hall
      obtain ⟨es, hes⟩ := hall p (List.mem_cons_self p rest)
      obtain ⟨act, hact⟩ := ih (fun q hq => hall q (List.mem_cons_of_mem p hq))
      obtain ⟨k0, v0⟩ := p
      simp only at hes
      subst hes
      exact ⟨if isTrueJ (List.lookup "active" es) then k0 :: act else act,
        by simp [loadActives, jgetActive, hact]⟩

theorem C5_witness :
    loadHistory (.json (.jdict [("a", JValue.jdict [])])) =
      .ok ([("a", JValue.jdict [])], []) ∧
    ∃ act, loadActives [("a", JValue.jdict [])] = .ok act :=
  ⟨C5_load_decode_behaviour.2.2.1 [("a", JValue.jdict [])] [] rfl,
    C5_load_decode_behaviour.2.2.2.1 [("a", JValue.jdict [])]
      (by intro p hp; simp only [List.mem_singleton] at hp;
          exact ⟨[], by rw [hp]⟩)⟩

/-- C4 counterexample: an item whose market field holds the `"N/A"` sentinel
but whose match and new-odds fields are resolved is *not* excluded: `run`
only filters on `data['match']` and `data['odds_new']`, so the item is
fingerprinted (the market sentinel even ends up inside the fingerprint
input), produces an Added event, and lands in both the active set and the
history store. -/
theorem C4_counterexample :
    processCycle (fun s => s) { active_superquotes := [], history := [] }
        [{ sport := "Soccer", details := "d", «match» := "A vs B",
           market := "N/A", odds_old := "1,50", odds_new := "1,80",
           timestamp := "t" }] =
      .ok ({ active_superquotes := ["A vs B|N/A|d"],
             history := [("A vs B|N/A|d",
               { sport := "Soccer", details := "d", «match» := "A vs B",
                 market := "N/A", odds_old := "1,50", odds_new := "1,80",
                 timestamp := "t", active := true })] },
        ["A vs B|N/A|d"],
        [.added { sport := "Soccer", details := "d", «match» := "A vs B",
                  market := "N/A", odds_old := "1,50", odds_new := "1,80",
                  timestamp := "t" }]) := by
  rfl

/-- C4 amended: an extracted item is excluded from the cycle's candidate set
exactly when its match field or its new-odds field holds the `"N/A"`
sentinel: such an item is never fingerprinted, produces no event and no
state change; the market field plays no part in the filter.  The second
part shows the cycle's fingerprint list is exactly the ids of the items
passing that filter, in acquisition order. -/
theorem C4_sentinel_filter :
    (∀ (md5hex : String → String) (st : BotState) (d : Item),
        d.«match» = "N/A" ∨ d.odds_new = "N/A" →
        processItem md5hex st d = .ok (st, [], []))
    ∧ (∀ (md5hex : String → String) (st : BotState) (items : List Item)
        (st' : BotState) (ids : List String) (evs : List Event),
        processCycle md5hex st items = .ok (st', ids, evs) →
        ids = cycleIds md5hex items) := by
  constructor
  · intro md5hex st d hv
    simp [processItem, hv]
  · intro md5hex st items st' ids evs h
    obtain ⟨st1, evs1, evs2, hil, _, _⟩ :=
      processCycle_ok_cases md5hex st items st' ids evs h
    exact itemsLoop_ids md5hex items st st1 ids evs1 hil

theorem C4_witness :
    processItem (fun s => s) { active_superquotes := [], history := [] }
        { sport := "Soccer", details := "d", «match» := "N/A",
          market := "Winner", odds_old := "1,50", odds_new := "1,80",
          timestamp := "t" } =
      .ok ({ active_superquotes := [], history := [] }, [], []) ∧
    ["m|mk|d"] = cycleIds (fun s => s)
      [{ sport := "s", details := "d", «match» := "m", market := "mk",
         odds_old := "1,10", odds_new := "2,00", timestamp := "t" }] :=
  ⟨C4_sentinel_filter.1 (fun s => s) { active_superquotes := [], history := [] }
      { sport := "Soccer", details := "d", «match» := "N/A",
        market := "Winner", odds_old := "1,50", odds_new := "1,80",
        timestamp := "t" } (Or.inl rfl),
    C4_sentinel_filter.2 (fun s => s) { active_superquotes := [], history := [] }
      [{ sport := "s", details := "d", «match» := "m", market := "mk",
         odds_old := "1,10", odds_new := "2,00", timestamp := "t" }]
      { active_superquotes := ["m|mk|d"],
        history := [("m|mk|d",
          { sport := "s", details := "d", «match» := "m", market := "mk",
            odds_old := "1,10", odds_new := "2,00", timestamp := "t",
            active := true })] }
      ["m|mk|d"]
      [.added { sport := "s", details := "d", «match» := "m", market := "mk",
                odds_old := "1,10", odds_new := "2,00", timestamp := "t" }]
      (by rfl)⟩

/-- C3 counterexample: when a fingerprint is already in the history store
*and* in the active set, processing a fresh observation of it does not
overwrite the value fields: the stored record keeps its old odds
(`odds_new = "1,50"`) even though the observed item carries `"2,00"`; only
the timestamp and the active flag are written.  This contradicts the claim
that the value fields are overwritten with the newly observed values. -/
theorem C3_counterexample :
    processItem (fun s => s)
        { active_superquotes := ["m|mk|d"],
          history := [("m|mk|d",
            { sport := "s", details := "d", «match» := "m", market := "mk",
              odds_old := "1,10", odds_new := "1,50", timestamp := "t1",
              active := true })] }
        { sport := "s", details := "d", «match» := "m", market := "mk",
          odds_old := "1,20", odds_new := "2,00", timestamp := "t2" } =
      .ok ({ active_superquotes := ["m|mk|d"],
             history := [("m|mk|d",
               { sport := "s", details := "d", «match» := "m", market := "mk",
                 odds_old := "1,10", odds_new := "1,50", timestamp := "t2",
                 active := true })] },
        ["m|mk|d"], []) ∧
    ("1,50" : String) ≠ "2,00" := by
  exact ⟨rfl, by decide⟩

/-- C3 amended: processing a valid current-cycle item whose fingerprint is
in the *active set* refreshes only the stored record's timestamp and active
flag, leaving the value fields (old/new odds and all other fields) at their
previous values, and emits no event; an item whose fingerprint is *not* in
the active set - whether unseen or present in the history store as an
inactive record - has a complete new record (all fields taken from the
item, active flag true) stored under its fingerprint, and an Added event is
emitted. -/
theorem C3_upsert_refreshes_or_inserts (md5hex : String → String)
    (st : BotState) (d : Item) (st' : BotState) (ids : List String)
    (evs : List Event) (hv : ¬(d.«match» = "N/A" ∨ d.odds_new = "N/A"))
    (h : processItem md5hex st d = .ok (st', ids, evs)) :
    (generate_id md5hex d ∈ st.active_superquotes →
      ∃ r, List.lookup (generate_id md5hex d) st.history = some r ∧
        List.lookup (generate_id md5hex d) st'.history =
          some { r with timestamp := d.timestamp, active := true } ∧
        evs = [] ∧ st'.active_superquotes = st.active_superquotes)
    ∧ (generate_id md5hex d ∉ st.active_superquotes →
      List.lookup (generate_id md5hex d) st'.history =
        some (Record.ofItem d) ∧ evs = [.added d] ∧
      st'.active_superquotes =
        st.active_superquotes ++ [generate_id md5hex d]) := by
  rcases processItem_ok_cases md5hex st d st' ids evs h with
    ⟨hv2, _, _, _⟩ | ⟨_, hm, hist, hdm, hst, _, hevs⟩ | ⟨_, hm, hst, _, hevs⟩
  · exact absurd hv2 hv
  · constructor
    · intro _
      have hsome : (List.lookup (generate_id md5hex d) st.history).isSome := by
        rw [← dmodify_isSome st.history (generate_id md5hex d)
          (fun r => { r with timestamp := d.timestamp, active := true }), hdm]
        rfl
      obtain ⟨r, hr⟩ := Option.isSome_iff_exists.mp hsome
      have hl := lookup_dmodify_self st.history hist (generate_id md5hex d) _
        hdm
      rw [hr] at hl
      simp at hl
      refine ⟨r, hr, ?_, hevs, by rw [hst]⟩
      rw [hst]
      exact hl
    · intro hm2
      exact absurd hm hm2
  · constructor
    · intro hm2
      exact absurd hm2 hm
    · intro _
      refine ⟨?_, hevs, by rw [hst]⟩
      rw [hst]
      exact lookup_dinsert_self st.history (generate_id md5hex d)
        (Record.ofItem d)

theorem C3_witness :
    ¬(("m" : String) = "N/A" ∨ ("2,00" : String) = "N/A") ∧
    (∃ r, List.lookup "m|mk|d"
        ([("m|mk|d",
          { sport := "s", details := "d", «match» := "m", market := "mk",
            odds_old := "1,10", odds_new := "1,50", timestamp := "t1",
            active := true })] : List (String × Record)) = some r ∧
      List.lookup "m|mk|d"
        ([("m|mk|d",
          { sport := "s", details := "d", «match» := "m", market := "mk",
            odds_old := "1,10", odds_new := "1,50", timestamp := "t2",
            active := true })] : List (String × Record)) =
        some { r with timestamp := "t2", active := true } ∧
      ([] : List Event) = [] ∧ (["m|mk|d"] : List String) = ["m|mk|d"]) := by
  refine ⟨by decide, ?_⟩
  exact (C3_upsert_refreshes_or_inserts (fun s => s)
      { active_superquotes := ["m|mk|d"],
        history := [("m|mk|d",
          { sport := "s", details := "d", «match» := "m", market := "mk",
            odds_old := "1,10", odds_new := "1,50", timestamp := "t1",
            active := true })] }
      { sport := "s", details := "d", «match» := "m", market := "mk",
        odds_old := "1,20", odds_new := "2,00", timestamp := "t2" }
      { active_superquotes := ["m|mk|d"],
        history := [("m|mk|d",
          { sport := "s", details := "d", «match» := "m", market := "mk",
            odds_old := "1,10", odds_new := "1,50", timestamp := "t2",
            active := true })] }
      ["m|mk|d"] [] (by decide) rfl).1 (by decide)

theorem addedIds_append (md5hex : String → String) (l1 l2 : List Event) :
    addedIds md5hex (l1 ++ l2) = addedIds md5hex l1 ++ addedIds md5hex l2 := by
  simp [addedIds]

theorem addedIds_removed (md5hex : String → String) :
    ∀ R : List (String × Record),
    addedIds md5hex (R.map (fun p => Event.removed p.1 p.2)) = [] := by
  intro R
  induction R with
  | nil => rfl
  | cons p rest ih => simp [addedIds] at ih ⊢

theorem itemsLoop_added_count (md5hex : String → String) :
    ∀ (items : List Item) (st st' : BotState) (ids : List String)
      (evs : List Event),
    itemsLoop md5hex st items = .ok (st', ids, evs) →
    ∀ b, (addedIds md5hex evs).count b =
      if b ∈ ids ∧ b ∉ st.active_superquotes then 1 else 0 := by
  intro items
  induction items with
  | nil =>
    intro st st' ids evs h b
    simp only [itemsLoop, Except.ok.injEq, Prod.mk.injEq] at h
    obtain ⟨_, h2, h3⟩ := h
    simp [← h2, ← h3, addedIds]
  | cons d rest ih =>
    intro st st' ids evs h b
    obtain ⟨st1, ids1, evs1, ids2, evs2, hp, hl, hids, hevs⟩ :=
      itemsLoop_cons_ok md5hex st d rest st' ids evs h
    have ihb := ih st1 st' ids2 evs2 hl b
    rcases processItem_ok_cases md5hex st d st1 ids1 evs1 hp with
      ⟨_, hst, rfl, rfl⟩ | ⟨_, hm, hist, _, hst, rfl, rfl⟩ |
      ⟨_, hm, hst, rfl, rfl⟩
    · subst hids hevs
      rw [hst] at ihb
      simpa using ihb
    · subst hids hevs
      have hact : st1.active_superquotes = st.active_superquotes := by
        rw [hst]
      rw [hact] at ihb
      simp only [List.nil_append, ihb]
      by_cases hba : b ∈ st.active_superquotes
      · simp [hba]
      · by_cases hb2 : b ∈ ids2
        · simp [hba, hb2]
        · by_cases hbg : b = generate_id md5hex d
          · rw [hbg] at hba
            exact absurd hm hba
          · simp [hba, hb2, hbg]
    · subst hids hevs
      have hact : st1.active_superquotes =
          st.active_superquotes ++ [generate_id md5hex d] := by
        rw [hst]
      rw [hact] at ihb
      have hadd : addedIds md5hex (Event.added d :: evs2) =
          generate_id md5hex d :: addedIds md5hex evs2 := by
        simp [addedIds]
      simp only [List.singleton_append, hadd]
      by_cases hbg : b = generate_id md5hex d
      · rw [hbg] at ihb ⊢
        have h0 : (addedIds md5hex evs2).count (generate_id md5hex d) = 0 := by
          rw [ihb]
          simp
        rw [List.count_cons]
        simp [h0, hm]
      · rw [List.count_cons]
        simp only [beq_iff_eq, hbg, if_false, Nat.add_zero, ihb]
        by_cases hba : b ∈ st.active_superquotes
        · simp [hba, hbg, Ne.symm hbg]
        · by_cases hb2 : b ∈ ids2
          · simp [hba, hb2, hbg, Ne.symm hbg]
          · simp [hba, hb2, hbg, Ne.symm hbg]

/-- C10 amended: within one cycle, reconciliation emits *at most* one Added
event per fingerprint: exactly one when the fingerprint is among the
cycle's ids and was not in the active set when the cycle started (emitted
at its first occurrence, which inserts it into the active set), and none
when the fingerprint was already active.  Later duplicates take the
already-active branch, which only refreshes the stored record's timestamp
and active flag and emits no event. -/
theorem C10_duplicate_fingerprints (md5hex : String → String)
    (st : BotState) (items : List Item) (st' : BotState)
    (ids : List String) (evs : List Event)
    (h : processCycle md5hex st items = .ok (st', ids, evs)) :
    ∀ b, (addedIds md5hex evs).count b =
      if b ∈ ids ∧ b ∉ st.active_superquotes then 1 else 0 := by
  obtain ⟨st1, evs1, evs2, hil, hrl, hevs⟩ :=
    processCycle_ok_cases md5hex st items st' ids evs h
  obtain ⟨R, hR1, _⟩ := removeLoop_events _ st1 st' evs2 hrl
  intro b
  rw [hevs, addedIds_append, hR1, addedIds_removed, List.append_nil]
  exact itemsLoop_added_count md5hex items st st1 ids evs1 hil b

/-- C10 counterexample: with fingerprint `"m|mk|d"` already in the active
set, a cycle whose candidate list contains the item for that fingerprint
twice emits *zero* Added events (the empty event list below), not exactly
one; both occurrences take the refresh branch. -/
theorem C10_counterexample :
    processCycle (fun s => s)
        { active_superquotes := ["m|mk|d"],
          history := [("m|mk|d",
            { sport := "s", details := "d", «match» := "m", market := "mk",
              odds_old := "1,10", odds_new := "1,50", timestamp := "t1",
              active := true })] }
        [{ sport := "s", details := "d", «match» := "m", market := "mk",
           odds_old := "1,20", odds_new := "2,00", timestamp := "t2" },
         { sport := "s", details := "d", «match» := "m", market := "mk",
           odds_old := "1,20", odds_new := "2,00", timestamp := "t2" }] =
      .ok ({ active_superquotes := ["m|mk|d"],
             history := [("m|mk|d",
               { sport := "s", details := "d", «match» := "m", market := "mk",
                 odds_old := "1,10", odds_new := "1,50", timestamp := "t2",
                 active := true })] },
        ["m|mk|d", "m|mk|d"], []) := by
  rfl

theorem C10_witness :
    (addedIds (fun s => s) [Event.added c10item]).count "m|mk|d" =
      if "m|mk|d" ∈ (["m|mk|d", "m|mk|d"] : List String) ∧
          "m|mk|d" ∉ ([] : List String) then 1 else 0 :=
  C10_duplicate_fingerprints (fun s => s)
    { active_superquotes := [], history := [] }
    [c10item, c10item]
    { active_superquotes := ["m|mk|d"],
      history := [("m|mk|d", Record.ofItem c10item)] }
    ["m|mk|d", "m|mk|d"]
    [Event.added c10item]
    rfl "m|mk|d"

/-- C6: reconciliation is idempotent.  If one diff step on a candidate list
succeeds, running the diff step again on the same list from the resulting
state succeeds, computes the same cycle ids, emits no Added and no Removed
events, and leaves the active set unchanged (every item takes the
already-active refresh branch, and no active id is stale). -/
theorem C6_reconcile_idempotent (md5hex : String → String) (st : BotState)
    (items : List Item) (st1 : BotState) (ids : List String)
    (evs : List Event)
    (h : processCycle md5hex st items = .ok (st1, ids, evs)) :
    ∃ st2, processCycle md5hex st1 items = .ok (st2, ids, []) ∧
      st2.active_superquotes = st1.active_superquotes := by
  obtain ⟨stA, evs1, evs2, hil, hrl, hevs⟩ :=
    processCycle_ok_cases md5hex st items st1 ids evs h
  have hids := itemsLoop_ids md5hex items st stA ids evs1 hil
  have hmemA := (itemsLoop_active md5hex items st stA ids evs1 hil).2
  have hpresA := (itemsLoop_history md5hex items st stA ids evs1 hil).2
  have hactive1 := removeLoop_active _ stA st1 evs2 hrl
  have hmem1 : ∀ b, b ∈ st1.active_superquotes ↔
      b ∈ stA.active_superquotes ∧ b ∈ ids := by
    intro b
    rw [hactive1]
    constructor
    · intro hb
      have h1 := List.mem_of_mem_filter hb
      have h2 := List.of_mem_filter hb
      simp only [decide_eq_true_eq] at h2
      refine ⟨h1, ?_⟩
      by_contra hbid
      exact h2 (List.mem_filter.mpr ⟨h1, by simpa using hbid⟩)
    · intro hb
      obtain ⟨h1, h2⟩ := hb
      refine List.mem_filter.mpr ⟨h1, ?_⟩
      simp only [decide_eq_true_eq]
      intro hbf
      have := List.of_mem_filter hbf
      simp only [decide_eq_true_eq] at this
      exact this h2
  have hpres1 : ∀ bId ∈ ids, (List.lookup bId st1.history).isSome := by
    intro bId hb
    rw [removeLoop_history _ stA st1 evs2 hrl bId]
    exact hpresA bId hb
  have hvalid : ∀ d ∈ items, ¬(d.«match» = "N/A" ∨ d.odds_new = "N/A") →
      generate_id md5hex d ∈ ids := by
    intro d hd hv
    rw [hids]
    exact List.mem_map.mpr
      ⟨d, List.mem_filter.mpr ⟨hd, decide_eq_true hv⟩, rfl⟩
  obtain ⟨st2, hloop2, hact2, _⟩ := itemsLoop_stable md5hex items st1 (by
    intro d hd hv
    have hbid := hvalid d hd hv
    exact ⟨(hmem1 _).mpr ⟨hmemA _ hbid, hbid⟩, hpres1 _ hbid⟩)
  have hfil : st2.active_superquotes.filter
      (fun b => decide (b ∉ cycleIds md5hex items)) = [] := by
    rw [hact2]
    apply List.filter_eq_nil_iff.mpr
    intro b hb
    have hb2 := ((hmem1 b).mp hb).2
    rw [hids] at hb2
    simp [hb2]
  refine ⟨st2, ?_, hact2⟩
  have hrem : removeLoop st2 (st2.active_superquotes.filter
      (fun b => decide (b ∉ cycleIds md5hex items))) = .ok (st2, []) := by
    rw [hfil]
    rfl
  rw [hids]
  simp only [processCycle, hloop2, hrem]
  rfl

theorem C6_witness :
    ∃ st2, processCycle (fun s => s)
        { active_superquotes := ["m|mk|d"],
          history := [("m|mk|d", Record.ofItem c6item)] } [c6item] =
      .ok (st2, ["m|mk|d"], []) ∧
      st2.active_superquotes = ["m|mk|d"] :=
  C6_reconcile_idempotent (fun s => s)
    { active_superquotes := [], history := [] } [c6item]
    { active_superquotes := ["m|mk|d"],
      history := [("m|mk|d", Record.ofItem c6item)] }
    ["m|mk|d"] [Event.added c6item] rfl

/-- C8: deterministic event ordering of one diff step.  The cycle's events
are the item-loop events followed by the removal-loop events, so every
Added event precedes every Removed event; the Added events carry a
subsequence of the acquisition list, in acquisition order; the Removed
events enumerate, in order, exactly the stale keys
`active_superquotes.filter (· ∉ current_cycle_ids)` - the active set's
insertion order - and the active set after the item loop is the previous
active set (whose order was itself built by earlier acquisitions) followed
by this cycle's new fingerprints in acquisition order.  No other source of
ordering (hashing, randomness, time) is involved. -/
theorem C8_event_order (md5hex : String → String) (st : BotState)
    (items : List Item) (st' : BotState) (ids : List String)
    (evs : List Event)
    (h : processCycle md5hex st items = .ok (st', ids, evs)) :
    ∃ (stA : BotState) (A : List Item) (R : List (String × Record))
      (evs1 evs2 : List Event),
      itemsLoop md5hex st items = .ok (stA, ids, evs1) ∧
      evs = evs1 ++ evs2 ∧
      evs1 = A.map Event.added ∧ List.Sublist A items ∧
      evs2 = R.map (fun p => Event.removed p.1 p.2) ∧
      R.map Prod.fst =
        stA.active_superquotes.filter (fun b => decide (b ∉ ids)) ∧
      ∃ newIds, stA.active_superquotes = st.active_superquotes ++ newIds ∧
        List.Sublist newIds ids := by
  obtain ⟨stA, evs1, evs2, hil, hrl, hevs⟩ :=
    processCycle_ok_cases md5hex st items st' ids evs h
  obtain ⟨A, hA1, hA2⟩ := itemsLoop_events md5hex items st stA ids evs1 hil
  obtain ⟨R, hR1, hR2⟩ := removeLoop_events _ stA st' evs2 hrl
  obtain ⟨⟨newIds, hn1, hn2⟩, _⟩ :=
    itemsLoop_active md5hex items st stA ids evs1 hil
  exact ⟨stA, A, R, evs1, evs2, hil, hevs, hA1, hA2, hR1, hR2,
    newIds, hn1, hn2⟩

theorem C8_witness :
    ∃ (stA : BotState) (A : List Item) (R : List (String × Record))
      (evs1 evs2 : List Event),
      itemsLoop (fun s => s)
          { active_superquotes := ["o|mk|d"],
            history := [("o|mk|d", c8rec)] } [c8item] =
        .ok (stA, ["m|mk|d"], evs1) ∧
      ([Event.added c8item, Event.removed "o|mk|d" c8rec] : List Event) =
        evs1 ++ evs2 ∧
      evs1 = A.map Event.added ∧ List.Sublist A [c8item] ∧
      evs2 = R.map (fun p => Event.removed p.1 p.2) ∧
      R.map Prod.fst =
        stA.active_superquotes.filter (fun b => decide (b ∉ ["m|mk|d"])) ∧
      ∃ newIds, stA.active_superquotes = ["o|mk|d"] ++ newIds ∧
        List.Sublist newIds ["m|mk|d"] :=
  C8_event_order (fun s => s)
    { active_superquotes := ["o|mk|d"], history := [("o|mk|d", c8rec)] }
    [c8item]
    { active_superquotes := ["m|mk|d"],
      history := [("o|mk|d", { c8rec with active := false }),
        ("m|mk|d", Record.ofItem c8item)] }
    ["m|mk|d"]
    [Event.added c8item, Event.removed "o|mk|d" c8rec]
    rfl
